import Mathlib

/-!
Shallow embedding of the signal computation engine of `calc_signals.py`.

Modelling conventions:
* Python floats standing for data values are modelled as `ℚ`; the NaN
  sentinel that marks a missing value is modelled as `none` in `Option ℚ`
  (`pd.to_numeric(..., errors="coerce")` turns an invalid cell into NaN,
  i.e. into `none` here).
* A pandas DataFrame of daily records is a `List Row`; `df is None` is
  `none` in `Option (List Row)`, `df.empty` is the empty list.
* A raised Python exception is `Except.error` carrying the message string.
* Network-bound pull functions (`pro.daily`, `pro.daily_basic`,
  `ak.stock_zh_index_value_csindex`, ...) are parameters of the embedded
  functions, so that the control flow around them is embedded exactly.
* `time.sleep`, CSV writing and the process timestamp are I/O effects with
  no bearing on the computed values; they are not modelled.
-/

set_option maxRecDepth 40000

namespace CalcSignals

/-- Exceptions are modelled by their message. -/
abbrev Err := String

/-- Round-half-to-even of a rational to an integer, the rounding used by
Python's builtin `round`. -/
def roundHalfToEven (q : ℚ) : ℤ :=
  if q - (⌊q⌋ : ℚ) < 1/2 then ⌊q⌋
  else if 1/2 < q - (⌊q⌋ : ℚ) then ⌊q⌋ + 1
  else if ⌊q⌋ % 2 = 0 then ⌊q⌋ else ⌊q⌋ + 1

/-- Python `round(x, 1)`. -/
def round1 (q : ℚ) : ℚ := (roundHalfToEven (q * 10) : ℚ) / 10

/-- Python `round(x, 4)`. -/
def round4 (q : ℚ) : ℚ := (roundHalfToEven (q * 10000) : ℚ) / 10000

/-- `pct_rank(series, value)` from `calc_signals.py` lines 15-19:
`s = pd.to_numeric(series, errors="coerce").dropna()`; if `len(s) == 0 or
pd.isna(value)` return NaN; else `round((s.lt(value).sum() / len(s)) * 100.0, 1)`. -/
def pct_rank (series : List (Option ℚ)) (value : Option ℚ) : Option ℚ :=
  let s := series.filterMap id
  if s.length = 0 then none
  else
    match value with
    | none => none
    | some v =>
        some (round1 (((s.countP (fun x => decide (x < v)) : ℚ) / (s.length : ℚ)) * 100))

/-- A timezone-aware instant, reduced to the fields `cn_end_date` reads:
the calendar date (as a day number, one unit per calendar day) and the
local hour component. -/
structure PyDateTime where
  day : ℤ
  hour : ℤ
deriving Repr, DecidableEq

/-- `dt - timedelta(days=n)`: moves the calendar date, keeps the clock time. -/
def subDays (dt : PyDateTime) (n : ℤ) : PyDateTime := ⟨dt.day - n, dt.hour⟩

/-- `dt.strftime("%Y%m%d")`: the calendar date of the instant. -/
def strftimeDate (dt : PyDateTime) : ℤ := dt.day

/-- `cn_end_date()` from `calc_signals.py` lines 21-24:
`use_date = now_cn - timedelta(days=1) if now_cn.hour < 17 else now_cn`,
then format the date.  The instant `now` (Asia/Shanghai wall clock) is a
parameter. -/
def cn_end_date (now : PyDateTime) : ℤ :=
  strftimeDate (if now.hour < 17 then subDays now 1 else now)

/-- `df is not None and not df.empty`. -/
def dfNonEmpty {α : Type} : Option (List α) → Bool
  | none => false
  | some l => !l.isEmpty

/-- One pull attempt is a success when it neither raised nor returned a
None/empty frame. -/
def isSuccess {α : Type} : Except Err (Option (List α)) → Bool
  | .ok df => dfNonEmpty df
  | .error _ => false

/-- One pull attempt raised. -/
def isError {α : Type} : Except Err (Option (List α)) → Bool
  | .ok _ => false
  | .error _ => true

/-- The loop of `fetch_with_backoff` (lines 29-40), iterating over the
remaining day offsets `ds` with the currently recorded `last_err`. -/
def fwb_go {α : Type} (fetch_fn : ℤ → Except Err (Option (List α))) (base : ℤ) :
    List ℕ → Option Err → Except Err (Option (List α) × ℤ)
  | [], last_err =>
      match last_err with
      | some e => .error e
      | none => .ok (none, base)
  | d :: rest, last_err =>
      match fetch_fn (base - (d : ℤ)) with
      | .error e => fwb_go fetch_fn base rest (some e)
      | .ok df =>
          if dfNonEmpty df then .ok (df, base - (d : ℤ))
          else fwb_go fetch_fn base rest last_err

/-- `fetch_with_backoff(fetch_fn, max_back, sleep)` from `calc_signals.py`
lines 26-40.  `base` is the date computed there by `cn_end_date()`; the
candidate end dates are `base - d` for `d in range(max_back + 1)`.  The
`time.sleep(sleep)` between failed attempts is an effect without a value
and is not modelled. -/
def fetch_with_backoff {α : Type} (fetch_fn : ℤ → Except Err (Option (List α)))
    (max_back : ℕ) (base : ℤ) : Except Err (Option (List α) × ℤ) :=
  fwb_go fetch_fn base (List.range (max_back + 1)) none

/-- The `last_err` value after scanning the offsets `ds` starting from
accumulator `le`: the error of the last raising attempt, if any. -/
def lastErrAux {α : Type} (fetch_fn : ℤ → Except Err (Option (List α))) (base : ℤ)
    (ds : List ℕ) (le : Option Err) : Option Err :=
  ds.foldl (fun acc (d : ℕ) =>
    match fetch_fn (base - (d : ℤ)) with
    | .error e => some e
    | .ok _ => acc) le

/-- One row of a retrieved daily frame, with the columns the engine reads.
Each data cell is `none` when missing/NaN. -/
structure Row where
  trade_date : ℤ
  close : Option ℚ
  vol : Option ℚ
  amount : Option ℚ
  pe_ttm : Option ℚ
  pb : Option ℚ
deriving Repr, DecidableEq

/-- `df.sort_values("trade_date")`. -/
def sortByTradeDate (df : List Row) : List Row :=
  List.insertionSort (fun a b => a.trade_date ≤ b.trade_date) df

/-- `pd.to_numeric(df["close"], errors="coerce")`. -/
def closeColumn (df : List Row) : List (Option ℚ) := df.map (fun r => r.close)

/-- The volume source of `get_ma_and_vol` line 62: the `vol` column when the
frame has one, else the `amount` column as a proxy. -/
def volColumn (df : List Row) (hasVolCol : Bool) : List (Option ℚ) :=
  if hasVolCol then df.map (fun r => r.vol) else df.map (fun r => r.amount)

/-- `pd.to_numeric(df["pe_ttm"], errors="coerce")`. -/
def peColumn (df : List Row) : List (Option ℚ) := df.map (fun r => r.pe_ttm)

/-- `pd.to_numeric(df["pb"], errors="coerce")`. -/
def pbColumn (df : List Row) : List (Option ℚ) := df.map (fun r => r.pb)

/-- `col.dropna().iloc[-1]` when it exists: the last valid value of a column. -/
def lastValid (col : List (Option ℚ)) : Option ℚ := (col.filterMap id).getLast?

/-- `col.rolling(w).mean().iloc[-1]` for a column with `w ≤ col.length`:
pandas' default `min_periods = w` makes the result NaN unless every cell of
the trailing window of width `w` is valid, in which case it is their mean. -/
def rollingMeanLast (w : ℕ) (col : List (Option ℚ)) : Option ℚ :=
  let win := col.drop (col.length - w)
  if win.all (fun x => x.isSome) then some (((win.filterMap id).sum) / (w : ℚ))
  else none

/-- The `ma200` computation of `get_ma_and_vol` lines 65-68, returning the
value together with the flag that the `;use_ma120` note fragment was added:
`ma200 = close.rolling(200).mean().iloc[-1] if len(close) >= 200 else nan`;
if that is NaN and `len(close) >= 120`, retry with window 120 and note it. -/
def ma_long (close : List (Option ℚ)) : Option ℚ × Bool :=
  let ma0 := if 200 ≤ close.length then rollingMeanLast 200 close else none
  if ma0 = none ∧ 120 ≤ close.length then (rollingMeanLast 120 close, true)
  else (ma0, false)

/-- The feature tuple returned by `get_ma_and_vol`. -/
structure Feat where
  price : Option ℚ
  ma200 : Option ℚ
  vnow : Option ℚ
  vma20 : Option ℚ
  note : String
deriving Repr, DecidableEq

/-- The body of `get_ma_and_vol` (lines 59-72) once a non-empty frame `df`
has been obtained by the fetch phase, with `note0` the note accumulated by
that phase and `hasVolCol` recording whether `"vol" in df.columns`. -/
def ma_vol_features (df : List Row) (hasVolCol : Bool) (note0 : String) : Feat :=
  let sorted := sortByTradeDate df
  let close := closeColumn sorted
  let vol := volColumn sorted hasVolCol
  let price := lastValid close
  let p := ma_long close
  let note := if p.2 then note0 ++ ";use_ma120" else note0
  let vma20 := if 20 ≤ vol.length then rollingMeanLast 20 vol else none
  let vnow := (vol.getLast?).join
  ⟨price, p.1, vnow, vma20, note⟩

/-- The quadruple returned by `stock_percentile` / `index_percentile`:
`(latest_metric, metric_name, percentile, note)`. -/
structure ValRes where
  latest : Option ℚ
  metric_name : String
  percentile : Option ℚ
  note : String
deriving Repr, DecidableEq

/-- `stock_percentile(pro, ts_code)` from lines 74-90, parameterized by the
outcome `(df, used_end)` of its `fetch_with_backoff` call (the fetch either
raised, which propagates before this body runs, or produced these). -/
def stock_percentile (df : Option (List Row)) (used_end : ℤ) : ValRes :=
  match df with
  | none => ⟨none, "na", none, "end=" ++ toString used_end ++ ";no_daily_basic"⟩
  | some rows =>
      if rows.isEmpty then
        ⟨none, "na", none, "end=" ++ toString used_end ++ ";no_daily_basic"⟩
      else
        let sorted := sortByTradeDate rows
        let pe := peColumn sorted
        let pb := pbColumn sorted
        match lastValid pe with
        | some latest =>
            ⟨some latest, "pe_ttm", pct_rank pe (some latest),
              "end=" ++ toString used_end⟩
        | none =>
            match lastValid pb with
            | some latest =>
                ⟨some latest, "pb", pct_rank pb (some latest),
                  "end=" ++ toString used_end⟩
            | none => ⟨none, "na", none, "end=" ++ toString used_end ++ ";no_pe_pb"⟩

/-- The table returned by `ak.stock_zh_index_value_csindex`, reduced to the
two columns `index_percentile` looks up after lower-casing the column names:
`none` for a column that is not present. -/
structure AkTable where
  peCol : Option (List (Option ℚ))
  pbCol : Option (List (Option ℚ))
deriving Repr, DecidableEq

/-- One iteration of the primary-source metric loop of `index_percentile`
(lines 99-103): if the column has any valid value, take the last valid one
as `latest` and rank it within the full column. -/
def primTryCol (col : List (Option ℚ)) (mname note : String) : Option ValRes :=
  match lastValid col with
  | some latest => some ⟨some latest, mname, pct_rank col (some latest), note⟩
  | none => none

/-- One iteration of the akshare fallback loop of `index_percentile`
(lines 113-118): skip a missing column; otherwise drop the invalid cells
first, and when something is left take its last value as `latest` and rank
it within the dropped series. -/
def akTryCol (col : Option (List (Option ℚ))) (mname note : String) : Option ValRes :=
  match col with
  | none => none
  | some c =>
      let ser := c.filterMap id
      match ser.getLast? with
      | some latest =>
          some ⟨some latest, mname, pct_rank (ser.map some) (some latest), note⟩
      | none => none

/-- `index_code.split(".")[0]`: strip the market suffix. -/
def normalizeIndexCode (index_code : String) : String :=
  (index_code.splitOn ".").headD index_code

/-- The akshare fallback region of `index_percentile` (lines 104-122),
reached when the primary source produced no usable metric: `akRes` is the
outcome of the guarded `ak.stock_zh_index_value_csindex` call (`.error e`
when it raised, `.ok none` when it returned a None/empty table,
`.ok (some t)` otherwise). -/
def akBranch (akRes : Except Err (Option AkTable)) (index_code : String) : ValRes :=
  match akRes with
  | .error e =>
      ⟨none, "na", none, "no_index_basic:" ++ index_code ++ ";ak_err:" ++ e⟩
  | .ok none =>
      ⟨none, "na", none, "no_index_basic:" ++ index_code ++ ";ak_empty"⟩
  | .ok (some t) =>
      let akNote := "akshare_csindex:" ++ normalizeIndexCode index_code
      match (akTryCol t.peCol "pe_ttm" akNote).orElse
          (fun _ => akTryCol t.pbCol "pb" akNote) with
      | some r => r
      | none =>
          ⟨none, "na", none, "no_index_basic:" ++ index_code ++ ";ak_empty"⟩

/-- `index_percentile(pro, index_code)` from lines 92-122, parameterized by
the outcome `(df, used_end)` of its `fetch_with_backoff` call on
`index_dailybasic` and by the outcome `akRes` of the guarded akshare call. -/
def index_percentile (df : Option (List Row)) (used_end : ℤ)
    (akRes : Except Err (Option AkTable)) (index_code : String) : ValRes :=
  let primary : Option ValRes :=
    match df with
    | none => none
    | some rows =>
        if rows.isEmpty then none
        else
          let sorted := sortByTradeDate rows
          let note := "end=" ++ toString used_end
          (primTryCol (peColumn sorted) "pe_ttm" note).orElse
            (fun _ => primTryCol (pbColumn sorted) "pb" note)
  match primary with
  | some r => r
  | none => akBranch akRes index_code

/-- `decide_action(percentile, trend)` from `calc_signals.py` lines 124-132. -/
def decide_action (percentile : Option ℚ) (trend : String) : String :=
  match percentile with
  | none => "Hold – no trade"
  | some p =>
      if 70 < p then "Trim (≤5%)"
      else if p < 30 then
        if trend = "above" then "Add (≤5%)" else "Hold – wait for trend"
      else "Hold – no trade"

/-- The feature half of one `main`-loop iteration (lines 145-153): the
result of `get_ma_and_vol`, or the all-NaN defaults plus the `ma_err:` note
when it raised. -/
def featOrDefault (featRes : Except Err Feat) : Feat :=
  match featRes with
  | .ok f => f
  | .error e => ⟨none, none, none, none, "ma_err:" ++ e⟩

/-- Lines 147-149: `trend = "above" if (ma200 and price are non-NaN floats
and price >= ma200) else "below"`. -/
def trendOf (price ma200 : Option ℚ) : String :=
  match price, ma200 with
  | some p, some m => if m ≤ p then "above" else "below"
  | _, _ => "below"

/-- The valuation half of one `main`-loop iteration (lines 156-164): the
result of `index_percentile`/`stock_percentile`, or the `na` defaults plus
the `val_err:` note when the attempt raised. -/
def valOrDefault (valRes : Except Err ValRes) : ValRes :=
  match valRes with
  | .ok v => v
  | .error e => ⟨none, "na", none, "val_err:" ++ e⟩

/-- Lines 176-177: the `vol_gt_vma20` cell — both values are non-NaN
numbers and the current volume strictly exceeds its moving average. -/
def volGt : Option ℚ → Option ℚ → Bool
  | some a, some b => decide (b < a)
  | _, _ => false

/-- Python `sep.join(xs)`. -/
def joinSep (sep : String) : List String → String
  | [] => ""
  | [x] => x
  | x :: y :: rest => x ++ sep ++ joinSep sep (y :: rest)

/-- Line 166: `";".join([x for x in [note1, note2] if x])`. -/
def joinNotes (note1 note2 : String) : String :=
  joinSep ";" (List.filter (fun s => decide (s ≠ "")) [note1, note2])

/-- One output record of `main` (lines 168-181).  Numeric cells written
blank for NaN are `none`; the run timestamp `updated_at` is an I/O value
outside the computation and is not modelled. -/
structure SignalRow where
  code : String
  metric_name : String
  latest_metric : Option ℚ
  percentile : Option ℚ
  price : Option ℚ
  ma200 : Option ℚ
  trend : String
  vol_gt_vma20 : Bool
  action : String
  note : String
deriving Repr, DecidableEq

/-- One iteration of the `main` loop (lines 143-181) for the symbol `code`,
parameterized by the outcome of its two guarded computations: `featRes` for
the `get_ma_and_vol` call and `valRes` for the
`index_percentile`/`stock_percentile` call (each `.error` when it raised). -/
def processSymbol (code : String) (featRes : Except Err Feat)
    (valRes : Except Err ValRes) : SignalRow :=
  let f := featOrDefault featRes
  let trend := trendOf f.price f.ma200
  let v := valOrDefault valRes
  { code := code
    metric_name := v.metric_name
    latest_metric := v.latest.map round4
    percentile := v.percentile
    price := f.price.map round4
    ma200 := f.ma200.map round4
    trend := trend
    vol_gt_vma20 := volGt f.vnow f.vma20
    action := decide_action v.percentile trend
    note := joinNotes f.note v.note }

/-- The `rows` list built by `main` over the configured `codes`
(`STOCK_CODES`), with the per-symbol computation outcomes given by the
oracles `featOf` and `valOf`. -/
def mainRows (codes : List String) (featOf : String → Except Err Feat)
    (valOf : String → Except Err ValRes) : List SignalRow :=
  codes.map (fun c => processSymbol c (featOf c) (valOf c))

/-! ### Helper lemmas -/

theorem roundHalfToEven_cases (q : ℚ) :
    roundHalfToEven q = ⌊q⌋ ∨ roundHalfToEven q = ⌊q⌋ + 1 := by
  unfold roundHalfToEven
  split_ifs <;> simp

theorem le_roundHalfToEven {q : ℚ} {n : ℤ} (h : (n : ℚ) ≤ q) :
    n ≤ roundHalfToEven q := by
  have hfl : n ≤ ⌊q⌋ := Int.le_floor.mpr h
  rcases roundHalfToEven_cases q with h' | h' <;> omega

theorem roundHalfToEven_le {q : ℚ} {n : ℤ} (h : q ≤ (n : ℚ)) :
    roundHalfToEven q ≤ n := by
  unfold roundHalfToEven
  have hfl : ⌊q⌋ ≤ n := Int.le_floor.mpr (le_trans (Int.floor_le q) h)
  split_ifs with h1 h2 h3
  · exact hfl
  · have hlt : (⌊q⌋ : ℚ) < (n : ℚ) - 1/2 := by
      have := Int.floor_le q
      linarith
    have : (⌊q⌋ : ℚ) < (n : ℚ) := by linarith
    have : ⌊q⌋ < n := by exact_mod_cast this
    omega
  · exact hfl
  · have heq : q - (⌊q⌋ : ℚ) = 1/2 := le_antisymm (not_lt.mp h2) (not_lt.mp h1)
    have : (⌊q⌋ : ℚ) < (n : ℚ) := by linarith
    have : ⌊q⌋ < n := by exact_mod_cast this
    omega

theorem round1_nonneg {q : ℚ} (h : 0 ≤ q) : 0 ≤ round1 q := by
  unfold round1
  have h10 : (0 : ℚ) ≤ q * 10 := by linarith
  have := le_roundHalfToEven (n := 0) (q := q * 10) (by exact_mod_cast h10)
  have : (0 : ℚ) ≤ (roundHalfToEven (q * 10) : ℚ) := by exact_mod_cast this
  linarith

theorem round1_le_hundred {q : ℚ} (h : q ≤ 100) : round1 q ≤ 100 := by
  unfold round1
  have h10 : q * 10 ≤ ((1000 : ℤ) : ℚ) := by push_cast; linarith
  have := roundHalfToEven_le h10
  have : (roundHalfToEven (q * 10) : ℚ) ≤ 1000 := by exact_mod_cast this
  linarith

theorem round1_hundred : round1 (100 : ℚ) = 100 := by
  have : roundHalfToEven ((100 : ℚ) * 10) = 1000 := by
    unfold roundHalfToEven
    norm_num
  unfold round1
  rw [this]
  norm_num

theorem round1_zero : round1 (0 : ℚ) = 0 := by
  have : roundHalfToEven ((0 : ℚ) * 10) = 0 := by
    unfold roundHalfToEven
    norm_num
  unfold round1
  rw [this]
  norm_num

/-! ### Claims -/

/-- Claim C1: the decision policy returns exactly "Hold – no trade" on an
absent percentile, "Trim (≤5%)" above 70, "Add (≤5%)" below 30 with trend
above, "Hold – wait for trend" below 30 with trend below, and "Hold – no
trade" for 30 ≤ percentile ≤ 70, the boundaries 30 and 70 included in the
hold bucket. -/
theorem C1_decision_policy :
    (∀ t, decide_action none t = "Hold – no trade") ∧
    (∀ (p : ℚ) (t : String), 70 < p → decide_action (some p) t = "Trim (≤5%)") ∧
    (∀ p : ℚ, p < 30 → decide_action (some p) "above" = "Add (≤5%)") ∧
    (∀ p : ℚ, p < 30 → decide_action (some p) "below" = "Hold – wait for trend") ∧
    (∀ (p : ℚ) (t : String), 30 ≤ p → p ≤ 70 →
      decide_action (some p) t = "Hold – no trade") ∧
    decide_action (some 30) "above" = "Hold – no trade" ∧
    decide_action (some 70) "above" = "Hold – no trade" := by
  refine ⟨fun t => rfl, ?_, ?_, ?_, ?_, ?_, ?_⟩
  · intro p t h
    simp only [decide_action]
    rw [if_pos h]
  · intro p h
    simp only [decide_action]
    rw [if_neg (by linarith), if_pos h]
    simp
  · intro p h
    simp only [decide_action]
    rw [if_neg (by linarith), if_pos h]
    simp
  · intro p t h1 h2
    simp only [decide_action]
    rw [if_neg (by linarith), if_neg (by linarith)]
  · simp only [decide_action]
    rw [if_neg (by norm_num), if_neg (by norm_num)]
  · simp only [decide_action]
    rw [if_neg (by norm_num), if_neg (by norm_num)]

/-- Witness for C1 at the concrete inputs of the spec's examples. -/
theorem C1_decision_policy_witness :
    decide_action (some 75) "above" = "Trim (≤5%)" ∧
    decide_action (some 25) "above" = "Add (≤5%)" ∧
    decide_action (some 25) "below" = "Hold – wait for trend" ∧
    decide_action (some 50) "above" = "Hold – no trade" :=
  ⟨C1_decision_policy.2.1 75 "above" (by norm_num),
   C1_decision_policy.2.2.1 25 (by norm_num),
   C1_decision_policy.2.2.2.1 25 (by norm_num),
   C1_decision_policy.2.2.2.2.1 50 "above" (by norm_num) (by norm_num)⟩

/-- Claim C9: the trading-date resolver returns the previous calendar date
when the local hour is strictly below the cutoff 17, and the current
calendar date otherwise. -/
theorem C9_trading_date (now : PyDateTime) :
    (now.hour < 17 → cn_end_date now = now.day - 1) ∧
    (17 ≤ now.hour → cn_end_date now = now.day) := by
  constructor
  · intro h
    simp [cn_end_date, strftimeDate, subDays, if_pos h]
  · intro h
    simp [cn_end_date, strftimeDate, subDays, if_neg (not_lt.mpr h)]

/-- Witness for C9 at a morning and an evening instant. -/
theorem C9_trading_date_witness :
    cn_end_date ⟨100, 9⟩ = 100 - 1 ∧ cn_end_date ⟨100, 18⟩ = 100 :=
  ⟨(C9_trading_date ⟨100, 9⟩).1 (by norm_num),
   (C9_trading_date ⟨100, 18⟩).2 (by norm_num)⟩

/-- Claim C2: the percentile ranker filters the history to valid entries,
returns absent on an empty filtered history or missing value, and otherwise
returns `100 × (entries strictly below value) / (valid entries)` rounded to
one decimal; the result is in `[0, 100]`, with `100.0` for a value above
every entry and `0.0` for a value below every entry. -/
theorem C2_pct_rank (series : List (Option ℚ)) (value : Option ℚ) :
    ((series.filterMap id = [] ∨ value = none) → pct_rank series value = none) ∧
    (∀ v : ℚ, value = some v → series.filterMap id ≠ [] →
      pct_rank series value =
        some (round1 (100 *
          ((series.filterMap id).countP (fun x => decide (x < v)) : ℚ) /
          ((series.filterMap id).length : ℚ)))) ∧
    (∀ v r : ℚ, pct_rank series (some v) = some r → 0 ≤ r ∧ r ≤ 100) ∧
    (∀ v : ℚ, series.filterMap id ≠ [] → (∀ x ∈ series.filterMap id, x < v) →
      pct_rank series (some v) = some 100) ∧
    (∀ v : ℚ, series.filterMap id ≠ [] → (∀ x ∈ series.filterMap id, v < x) →
      pct_rank series (some v) = some 0) := by
  refine ⟨?_, ?_, ?_, ?_, ?_⟩
  · rintro (h | h)
    · simp [pct_rank, h]
    · subst h
      by_cases hlen : (series.filterMap id).length = 0 <;> simp [pct_rank, hlen]
  · intro v hv hne
    subst hv
    have hlen : (series.filterMap id).length ≠ 0 := by
      simpa [List.length_eq_zero] using hne
    have harg : ((series.filterMap id).countP (fun x => decide (x < v)) : ℚ) /
        ((series.filterMap id).length : ℚ) * 100 =
        100 * ((series.filterMap id).countP (fun x => decide (x < v)) : ℚ) /
        ((series.filterMap id).length : ℚ) := by ring
    simp only [pct_rank, if_neg hlen, harg]
  · intro v r hr
    by_cases hlen : (series.filterMap id).length = 0
    · simp [pct_rank, hlen] at hr
    · simp only [pct_rank, if_neg hlen] at hr
      have hcnt : (series.filterMap id).countP (fun x => decide (x < v)) ≤
          (series.filterMap id).length := List.countP_le_length _
      have hlpos : 0 < ((series.filterMap id).length : ℚ) := by
        have : 0 < (series.filterMap id).length := Nat.pos_of_ne_zero hlen
        exact_mod_cast this
      have h0 : (0 : ℚ) ≤
          ((series.filterMap id).countP (fun x => decide (x < v)) : ℚ) /
            ((series.filterMap id).length : ℚ) * 100 := by positivity
      have h1 : ((series.filterMap id).countP (fun x => decide (x < v)) : ℚ) /
          ((series.filterMap id).length : ℚ) * 100 ≤ 100 := by
        have hc : ((series.filterMap id).countP (fun x => decide (x < v)) : ℚ) ≤
            ((series.filterMap id).length : ℚ) := by exact_mod_cast hcnt
        have : ((series.filterMap id).countP (fun x => decide (x < v)) : ℚ) /
            ((series.filterMap id).length : ℚ) ≤ 1 := by
          rw [div_le_one hlpos]
          exact hc
        linarith
      have hr' := Option.some.inj hr
      subst hr'
      exact ⟨round1_nonneg h0, round1_le_hundred h1⟩
  · intro v hne hall
    have hlen : (series.filterMap id).length ≠ 0 := by
      simpa [List.length_eq_zero] using hne
    have hcnt : (series.filterMap id).countP (fun x => decide (x < v)) =
        (series.filterMap id).length :=
      List.countP_eq_length.mpr (fun a ha => by simpa using hall a ha)
    simp only [pct_rank, if_neg hlen, hcnt]
    rw [div_self (by exact_mod_cast hlen), one_mul, round1_hundred]
  · intro v hne hall
    have hlen : (series.filterMap id).length ≠ 0 := by
      simpa [List.length_eq_zero] using hne
    have hcnt : (series.filterMap id).countP (fun x => decide (x < v)) = 0 :=
      List.countP_eq_zero.mpr (fun a ha => by
        simpa using not_lt.mpr (le_of_lt (hall a ha)))
    simp only [pct_rank, if_neg hlen, hcnt]
    norm_num [round1_zero]

/-- Witness for C2 at a concrete history with one invalid entry. -/
theorem C2_pct_rank_witness :
    pct_rank [some 1, some 2, none, some 3] (some 10) = some 100 ∧
    pct_rank [some 1, some 2, none, some 3] (some 0) = some 0 ∧
    pct_rank ([] : List (Option ℚ)) (some 1) = none :=
  ⟨(C2_pct_rank [some 1, some 2, none, some 3] (some 10)).2.2.2.1 10
      (by decide) (by decide),
   (C2_pct_rank [some 1, some 2, none, some 3] (some 0)).2.2.2.2 0
      (by decide) (by decide),
   (C2_pct_rank [] (some 1)).1 (Or.inl rfl)⟩

theorem eq_empty_of_length_zero {s : String} (h : s.length = 0) : s = "" := by
  cases s with
  | mk data =>
    have hd : data.length = 0 := h
    have : data = [] := List.length_eq_zero.mp hd
    subst this
    rfl

theorem append_ne_empty_left {s t : String} (h : s.length ≠ 0) : s ++ t ≠ "" := by
  intro hc
  have := congrArg String.length hc
  rw [String.length_append, String.length_empty] at this
  omega

theorem joinSep_pair_ne_empty {a b : String} (h : a.length ≠ 0) :
    joinSep ";" [a, b] ≠ "" := by
  show a ++ ";" ++ joinSep ";" [b] ≠ ""
  intro hc
  have := congrArg String.length hc
  rw [String.length_append, String.length_append, String.length_empty] at this
  omega

theorem joinNotes_ne_empty {n1 n2 : String} (h : n1 ≠ "" ∨ n2 ≠ "") :
    joinNotes n1 n2 ≠ "" := by
  have hlen : ∀ s : String, s ≠ "" → s.length ≠ 0 := fun s hs hc =>
    hs (eq_empty_of_length_zero hc)
  unfold joinNotes
  by_cases h1 : n1 = "" <;> by_cases h2 : n2 = ""
  · rcases h with h | h <;> exact absurd (by assumption) h
  · rw [show List.filter (fun s => decide (s ≠ "")) [n1, n2] = [n2] by
      simp [List.filter_cons, h1, h2]]
    exact h2
  · rw [show List.filter (fun s => decide (s ≠ "")) [n1, n2] = [n1] by
      simp [List.filter_cons, h1, h2]]
    exact h1
  · rw [show List.filter (fun s => decide (s ≠ "")) [n1, n2] = [n1, n2] by
      simp [List.filter_cons, h1, h2]]
    exact joinSep_pair_ne_empty (hlen n1 h1)

/-- Claim C7: in every per-symbol result, trend is "above" exactly when both
the price and the long moving average are present with price at or above the
average; a missing value, including a feature-extraction failure, yields
"below". -/
theorem C7_trend_invariant (code : String) (featRes : Except Err Feat)
    (valRes : Except Err ValRes) :
    ((processSymbol code featRes valRes).trend = "above" ↔
      ∃ p m, (featOrDefault featRes).price = some p ∧
        (featOrDefault featRes).ma200 = some m ∧ m ≤ p) ∧
    ((featOrDefault featRes).price = none ∨ (featOrDefault featRes).ma200 = none →
      (processSymbol code featRes valRes).trend = "below") ∧
    (∀ e, featRes = .error e → (processSymbol code featRes valRes).trend = "below") := by
  have hps : (processSymbol code featRes valRes).trend =
      trendOf (featOrDefault featRes).price (featOrDefault featRes).ma200 := rfl
  refine ⟨?_, ?_, ?_⟩
  · rw [hps]
    rcases hp : (featOrDefault featRes).price with _ | p <;>
      rcases hm : (featOrDefault featRes).ma200 with _ | m <;>
        simp only [trendOf]
    · simp
    · simp
    · simp
    · constructor
      · intro h
        refine ⟨p, m, rfl, rfl, ?_⟩
        by_contra hle
        rw [if_neg hle] at h
        exact absurd h (by decide)
      · rintro ⟨p', m', hp', hm', hle⟩
        obtain rfl : p = p' := Option.some.inj hp'
        obtain rfl : m = m' := Option.some.inj hm'
        rw [if_pos hle]
  · intro h
    rw [hps]
    rcases h with h | h
    · rw [h]
      rcases (featOrDefault featRes).ma200 with _ | m <;> rfl
    · rw [h]
      rcases (featOrDefault featRes).price with _ | p <;> rfl
  · intro e he
    subst he
    rfl

/-- Witness for C7: a raising extraction gives "below"; present values with
price at the average give "above". -/
theorem C7_trend_invariant_witness :
    (processSymbol "X" (.error "boom") (.ok ⟨none, "na", none, ""⟩)).trend = "below" ∧
    (processSymbol "Y" (.ok ⟨some 3, some 3, none, none, "n"⟩)
      (.ok ⟨none, "na", none, ""⟩)).trend = "above" :=
  ⟨(C7_trend_invariant "X" (.error "boom") (.ok ⟨none, "na", none, ""⟩)).2.2 "boom" rfl,
   (C7_trend_invariant "Y" (.ok ⟨some 3, some 3, none, none, "n"⟩)
      (.ok ⟨none, "na", none, ""⟩)).1.mpr ⟨3, 3, rfl, rfl, le_refl 3⟩⟩

/-- Claim C10: the `vol_gt_vma20` cell is a boolean, true exactly when both
the latest volume and the 20-day volume average are present and the former
strictly exceeds the latter; a missing value or equality gives false. -/
theorem C10_vol_flag (code : String) (featRes : Except Err Feat)
    (valRes : Except Err ValRes) :
    ((processSymbol code featRes valRes).vol_gt_vma20 = true ↔
      ∃ a b, (featOrDefault featRes).vnow = some a ∧
        (featOrDefault featRes).vma20 = some b ∧ b < a) ∧
    ((featOrDefault featRes).vnow = none ∨ (featOrDefault featRes).vma20 = none →
      (processSymbol code featRes valRes).vol_gt_vma20 = false) ∧
    (∀ a, (featOrDefault featRes).vnow = some a →
      (featOrDefault featRes).vma20 = some a →
      (processSymbol code featRes valRes).vol_gt_vma20 = false) := by
  have hps : (processSymbol code featRes valRes).vol_gt_vma20 =
      volGt (featOrDefault featRes).vnow (featOrDefault featRes).vma20 := rfl
  refine ⟨?_, ?_, ?_⟩
  · rw [hps]
    rcases ha : (featOrDefault featRes).vnow with _ | a <;>
      rcases hb : (featOrDefault featRes).vma20 with _ | b <;>
        simp only [volGt]
    · simp
    · simp
    · simp
    · constructor
      · intro h
        exact ⟨a, b, rfl, rfl, of_decide_eq_true h⟩
      · rintro ⟨a', b', ha', hb', hlt⟩
        obtain rfl : a = a' := Option.some.inj ha'
        obtain rfl : b = b' := Option.some.inj hb'
        exact decide_eq_true hlt
  · intro h
    rw [hps]
    rcases h with h | h
    · rw [h]
      rfl
    · rw [h]
      rcases (featOrDefault featRes).vnow with _ | a <;> rfl
  · intro a ha hb
    rw [hps, ha, hb]
    simp [volGt]

/-- Witness for C10: equal volumes give false, a missing average gives
false. -/
theorem C10_vol_flag_witness :
    (processSymbol "X" (.ok ⟨none, none, some 7, some 7, "n"⟩)
      (.ok ⟨none, "na", none, ""⟩)).vol_gt_vma20 = false ∧
    (processSymbol "Y" (.ok ⟨none, none, some 7, none, "n"⟩)
      (.ok ⟨none, "na", none, ""⟩)).vol_gt_vma20 = false :=
  ⟨(C10_vol_flag "X" (.ok ⟨none, none, some 7, some 7, "n"⟩)
      (.ok ⟨none, "na", none, ""⟩)).2.2 7 rfl rfl,
   (C10_vol_flag "Y" (.ok ⟨none, none, some 7, none, "n"⟩)
      (.ok ⟨none, "na", none, ""⟩)).2.1 (Or.inr rfl)⟩

/-- Claim C8: the orchestrator always emits one row per configured symbol,
in configuration order; each row depends only on its own symbol's outcomes;
a feature failure leaves that row's feature cells absent with trend "below"
and a non-empty note; a valuation failure leaves its valuation cells absent
with metric "na" and a non-empty note. -/
theorem C8_orchestrator (codes : List String)
    (featOf : String → Except Err Feat) (valOf : String → Except Err ValRes) :
    (mainRows codes featOf valOf).length = codes.length ∧
    (mainRows codes featOf valOf).map (fun r => r.code) = codes ∧
    (∀ k : ℕ, (mainRows codes featOf valOf)[k]? =
      (codes[k]?).map (fun c => processSymbol c (featOf c) (valOf c))) ∧
    (∀ c e, featOf c = .error e →
      (processSymbol c (featOf c) (valOf c)).price = none ∧
      (processSymbol c (featOf c) (valOf c)).ma200 = none ∧
      (processSymbol c (featOf c) (valOf c)).trend = "below" ∧
      (processSymbol c (featOf c) (valOf c)).vol_gt_vma20 = false ∧
      (processSymbol c (featOf c) (valOf c)).note ≠ "") ∧
    (∀ c e, valOf c = .error e →
      (processSymbol c (featOf c) (valOf c)).metric_name = "na" ∧
      (processSymbol c (featOf c) (valOf c)).latest_metric = none ∧
      (processSymbol c (featOf c) (valOf c)).percentile = none ∧
      (processSymbol c (featOf c) (valOf c)).note ≠ "") := by
  refine ⟨by simp [mainRows], ?_, ?_, ?_, ?_⟩
  · rw [mainRows, List.map_map]
    have hcomp : ((fun r : SignalRow => r.code) ∘
        fun c => processSymbol c (featOf c) (valOf c)) = id := rfl
    rw [hcomp, List.map_id]
  · intro k
    simp [mainRows]
  · intro c e he
    rw [he]
    refine ⟨rfl, rfl, rfl, rfl, ?_⟩
    show joinNotes ("ma_err:" ++ e) (valOrDefault (valOf c)).note ≠ ""
    refine joinNotes_ne_empty (Or.inl ?_)
    exact append_ne_empty_left (by simp [String.length])
  · intro c e he
    rw [he]
    refine ⟨rfl, rfl, rfl, ?_⟩
    show joinNotes (featOrDefault (featOf c)).note ("val_err:" ++ e) ≠ ""
    refine joinNotes_ne_empty (Or.inr ?_)
    exact append_ne_empty_left (by simp [String.length])

/-- Witness for C8: a two-symbol batch where the first symbol's feature
extraction and the second symbol's valuation raise. -/
theorem C8_orchestrator_witness :
    (mainRows ["A", "B"]
        (fun c => if c = "A" then .error "boom" else .ok ⟨some 1, some 1, none, none, "e"⟩)
        (fun c => if c = "B" then .error "bad" else .ok ⟨some 2, "pe_ttm", some 50, "v"⟩)).length
      = 2 ∧
    (processSymbol "A" (.error "boom") (.ok ⟨some 2, "pe_ttm", some 50, "v"⟩)).price = none ∧
    (processSymbol "B" (.ok ⟨some 1, some 1, none, none, "e"⟩) (.error "bad")).metric_name
      = "na" := by
  refine ⟨?_, ?_, ?_⟩
  · exact (C8_orchestrator ["A", "B"] _ _).1
  · exact ((C8_orchestrator ["A", "B"]
      (fun c => if c = "A" then .error "boom" else .ok ⟨some 1, some 1, none, none, "e"⟩)
      (fun c => if c = "B" then .error "bad" else .ok ⟨some 2, "pe_ttm", some 50, "v"⟩)).2.2.2.1
      "A" "boom" (by simp)).1
  · exact ((C8_orchestrator ["A", "B"]
      (fun c => if c = "A" then .error "boom" else .ok ⟨some 1, some 1, none, none, "e"⟩)
      (fun c => if c = "B" then .error "bad" else .ok ⟨some 2, "pe_ttm", some 50, "v"⟩)).2.2.2.2
      "B" "bad" (by simp)).1

theorem fwb_go_append {α : Type} (f : ℤ → Except Err (Option (List α))) (base : ℤ) :
    ∀ (ds₁ ds₂ : List ℕ) (le : Option Err),
      (∀ d ∈ ds₁, isSuccess (f (base - (d : ℤ))) = false) →
      fwb_go f base (ds₁ ++ ds₂) le =
        fwb_go f base ds₂ (lastErrAux f base ds₁ le) := by
  intro ds₁
  induction ds₁ with
  | nil =>
      intro ds₂ le _
      simp [lastErrAux]
  | cons d rest ih =>
      intro ds₂ le h
      have hd := h d (by simp)
      have hrest : ∀ x ∈ rest, isSuccess (f (base - (x : ℤ))) = false :=
        fun x hx => h x (by simp [hx])
      cases hfd : f (base - (d : ℤ)) with
      | error e =>
          have hstep : fwb_go f base ((d :: rest) ++ ds₂) le =
              fwb_go f base (rest ++ ds₂) (some e) := by
            simp [fwb_go, hfd]
          have hacc : lastErrAux f base (d :: rest) le =
              lastErrAux f base rest (some e) := by
            simp [lastErrAux, hfd]
          rw [hstep, ih ds₂ (some e) hrest, hacc]
      | ok df =>
          have hne : dfNonEmpty df = false := by
            have hd' := hd
            rw [hfd] at hd'
            simpa [isSuccess] using hd'
          have hstep : fwb_go f base ((d :: rest) ++ ds₂) le =
              fwb_go f base (rest ++ ds₂) le := by
            simp [fwb_go, hfd, hne]
          have hacc : lastErrAux f base (d :: rest) le =
              lastErrAux f base rest le := by
            simp [lastErrAux, hfd]
          rw [hstep, ih ds₂ le hrest, hacc]

theorem fwb_go_exhaust {α : Type} (f : ℤ → Except Err (Option (List α))) (base : ℤ)
    (ds : List ℕ) (le : Option Err)
    (h : ∀ d ∈ ds, isSuccess (f (base - (d : ℤ))) = false) :
    fwb_go f base ds le =
      match lastErrAux f base ds le with
      | some e => .error e
      | none => .ok (none, base) := by
  have := fwb_go_append f base ds [] le h
  rw [List.append_nil] at this
  rw [this]
  rfl

theorem lastErrAux_of_no_error {α : Type} (f : ℤ → Except Err (Option (List α)))
    (base : ℤ) :
    ∀ (ds : List ℕ) (le : Option Err),
      (∀ d ∈ ds, isError (f (base - (d : ℤ))) = false) →
      lastErrAux f base ds le = le := by
  intro ds
  induction ds with
  | nil => intro le _; rfl
  | cons d rest ih =>
      intro le h
      have hd := h d (by simp)
      have hrest : ∀ x ∈ rest, isError (f (base - (x : ℤ))) = false :=
        fun x hx => h x (by simp [hx])
      cases hfd : f (base - (d : ℤ)) with
      | error e =>
          rw [hfd] at hd
          exact absurd hd (by simp [isError])
      | ok df =>
          have : lastErrAux f base (d :: rest) le = lastErrAux f base rest le := by
            simp [lastErrAux, hfd]
          rw [this, ih le hrest]

theorem lastErrAux_append {α : Type} (f : ℤ → Except Err (Option (List α)))
    (base : ℤ) (l₁ l₂ : List ℕ) (le : Option Err) :
    lastErrAux f base (l₁ ++ l₂) le =
      lastErrAux f base l₂ (lastErrAux f base l₁ le) := by
  unfold lastErrAux
  exact List.foldl_append _ _ _ _

/-- `range (mb + 1)` split at a chosen offset `k ≤ mb`. -/
theorem range_split (k mb : ℕ) (h : k ≤ mb) :
    List.range (mb + 1) =
      List.range k ++ k :: List.map (fun x => k + Nat.succ x) (List.range (mb - k)) := by
  have h1 : mb + 1 = k + (mb - k + 1) := by omega
  rw [h1, List.range_add, List.range_succ_eq_map, List.map_cons, List.map_map]
  simp [Function.comp]

/-- Claim C4: the fetcher tries `base`, `base - 1`, ..., `base - max_back`
most recent first, skips a candidate on error or empty result, and returns
at the first candidate whose pull yields a non-empty series, paired with
that candidate date. -/
theorem C4_fetch_first_success {α : Type} (f : ℤ → Except Err (Option (List α)))
    (base : ℤ) (max_back k : ℕ) (l : List α) (hk : k ≤ max_back)
    (hfail : ∀ d : ℕ, d < k → isSuccess (f (base - (d : ℤ))) = false)
    (hok : f (base - (k : ℤ)) = .ok (some l)) (hne : l ≠ []) :
    fetch_with_backoff f max_back base = .ok (some l, base - (k : ℤ)) := by
  rw [fetch_with_backoff, range_split k max_back hk]
  rw [fwb_go_append f base _ _ none
    (fun d hd => hfail d (List.mem_range.mp hd))]
  have hempty : (some l).isSome = true := rfl
  have hnel : dfNonEmpty (some l) = true := by
    simp [dfNonEmpty, List.isEmpty_iff, hne]
  simp [fwb_go, hok, hnel]

/-- Witness for C4: `max_back = 3`, the two most recent candidates raise,
the third returns a non-empty series. -/
theorem C4_fetch_first_success_witness :
    fetch_with_backoff
      (fun ed => if ed = 10 then Except.error "e0"
        else if ed = 9 then Except.error "e1"
        else Except.ok (some [(42 : ℚ)])) 3 10 = .ok (some [42], 8) := by
  have h := C4_fetch_first_success
    (fun ed => if ed = 10 then Except.error "e0"
      else if ed = 9 then Except.error "e1"
      else Except.ok (some [(42 : ℚ)])) 10 3 2 [42]
    (by norm_num) (by decide) rfl (by decide)
  simpa using h

/-- Claim C3 (amended): when every candidate is exhausted — no attempt
returned a non-empty series — the fetcher re-raises the last recorded error
if any attempt raised, and otherwise returns an absent series paired with
the original start date `base` (not the earliest-tried date). -/
theorem C3_fetch_exhaust {α : Type} (f : ℤ → Except Err (Option (List α)))
    (base : ℤ) (max_back : ℕ)
    (hns : ∀ d : ℕ, d ≤ max_back → isSuccess (f (base - (d : ℤ))) = false) :
    ((∀ d : ℕ, d ≤ max_back → isError (f (base - (d : ℤ))) = false) →
      fetch_with_backoff f max_back base = .ok (none, base)) ∧
    (∀ (k : ℕ) (e : Err), k ≤ max_back → f (base - (k : ℤ)) = .error e →
      (∀ d : ℕ, k < d → d ≤ max_back → isError (f (base - (d : ℤ))) = false) →
      fetch_with_backoff f max_back base = .error e) := by
  have hns' : ∀ d ∈ List.range (max_back + 1), isSuccess (f (base - (d : ℤ))) = false :=
    fun d hd => hns d (by have := List.mem_range.mp hd; omega)
  constructor
  · intro hne
    rw [fetch_with_backoff, fwb_go_exhaust f base _ none hns']
    rw [lastErrAux_of_no_error f base _ none
      (fun d hd => hne d (by have := List.mem_range.mp hd; omega))]
  · intro k e hk hke hafter
    rw [fetch_with_backoff, fwb_go_exhaust f base _ none hns']
    have hsplit := range_split k max_back hk
    rw [hsplit, lastErrAux_append]
    have htail : ∀ d ∈ k :: List.map (fun x => k + Nat.succ x) (List.range (max_back - k)),
        d = k ∨ (k < d ∧ d ≤ max_back) := by
      intro d hd
      rcases List.mem_cons.mp hd with h | h
      · exact Or.inl h
      · right
        obtain ⟨j, hj, rfl⟩ := List.mem_map.mp h
        have := List.mem_range.mp hj
        omega
    have hacc : lastErrAux f base
        (k :: List.map (fun x => k + Nat.succ x) (List.range (max_back - k)))
        (lastErrAux f base (List.range k) none) = some e := by
      have hstep : lastErrAux f base
          (k :: List.map (fun x => k + Nat.succ x) (List.range (max_back - k)))
          (lastErrAux f base (List.range k) none) =
          lastErrAux f base (List.map (fun x => k + Nat.succ x) (List.range (max_back - k)))
            (some e) := by
        simp [lastErrAux, hke]
      rw [hstep]
      refine lastErrAux_of_no_error f base _ (some e) ?_
      intro d hd
      obtain ⟨j, hj, rfl⟩ := List.mem_map.mp hd
      have := List.mem_range.mp hj
      exact hafter _ (by omega) (by omega)
    rw [hacc]

/-- Counterexample to claim C3 as stated: with a pull that always returns an
empty frame (never raises), `max_back = 3` and start date `0`, exhaustion
returns the absent series paired with the start date `0` — not with the
earliest-tried date `0 - 3` as the claim asserts. -/
theorem C3_counterexample :
    fetch_with_backoff (fun _ => Except.ok (some ([] : List ℚ))) 3 0 =
      Except.ok (none, 0) ∧
    fetch_with_backoff (fun _ => Except.ok (some ([] : List ℚ))) 3 0 ≠
      Except.ok (none, 0 - 3) := by
  constructor
  · rfl
  · rw [show fetch_with_backoff (fun _ => Except.ok (some ([] : List ℚ))) 3 0 =
      Except.ok (none, 0) from rfl]
    intro h
    have h2 : ((none : Option (List ℚ)), (0 : ℤ)) = (none, 0 - 3) := by
      injection h
    have h3 : (0 : ℤ) = 0 - 3 := congrArg Prod.snd h2
    omega

/-- Witness for C3 (amended): an always-empty pull returns `(none, base)`
without raising; a pull that raises on every earlier candidate re-raises
the last such error. -/
theorem C3_fetch_exhaust_witness :
    fetch_with_backoff (fun _ => Except.ok (some ([] : List ℤ))) 3 0 =
      Except.ok (none, 0) ∧
    fetch_with_backoff
      (fun ed => if ed = 5 then Except.ok (some ([] : List ℤ))
        else Except.error "boom") 2 5 = Except.error "boom" :=
  ⟨(C3_fetch_exhaust (fun _ => Except.ok (some ([] : List ℤ))) 0 3
      (by decide)).1 (by decide),
   (C3_fetch_exhaust
      (fun ed => if ed = 5 then Except.ok (some ([] : List ℤ))
        else Except.error "boom") 5 2 (by decide)).2 2 "boom"
      (by norm_num) rfl
      (fun d h1 h2 => absurd (lt_of_lt_of_le h1 h2) (lt_irrefl 2))⟩

theorem countValid_ge_of_window_all (w : ℕ) (close : List (Option ℚ))
    (hw : w ≤ close.length)
    (hall : (close.drop (close.length - w)).all (fun x => x.isSome) = true) :
    w ≤ close.countP (fun x => x.isSome) := by
  have hlen : (close.drop (close.length - w)).length = w := by
    rw [List.length_drop]
    omega
  have hcnt : (close.drop (close.length - w)).countP (fun x => x.isSome) =
      (close.drop (close.length - w)).length :=
    List.countP_eq_length.mpr (by simpa [List.all_eq_true] using hall)
  have hsplit : close.countP (fun x => x.isSome) =
      (close.take (close.length - w)).countP (fun x => x.isSome) +
        (close.drop (close.length - w)).countP (fun x => x.isSome) := by
    conv_lhs => rw [← List.take_append_drop (close.length - w) close]
    rw [List.countP_append]
  omega

/-- A close series of 200 cells, valid except the most recent one. -/
def c5BadClose : List (Option ℚ) := List.replicate 199 (some 1) ++ [none]

/-- Counterexample to claim C5 as stated: `c5BadClose` has 199 valid close
values — at least 120 — yet the long moving average comes out absent, where
the claim requires the trailing-120 mean.  The `len(close)` guards of the
source count all cells, and a NaN inside the trailing window poisons the
rolling mean. -/
theorem C5_counterexample :
    120 ≤ c5BadClose.countP (fun x => x.isSome) ∧
    (ma_long c5BadClose).1 = none := by
  constructor
  · rw [c5BadClose, List.countP_append, List.countP_replicate]
    norm_num
  · rfl

/-- Claim C5 (amended): the long moving average is the mean of the trailing
200 cells when the series has at least 200 cells, all of the trailing 200
valid; otherwise, when the series has at least 120 cells, the 120-window
fallback fires (and is noted), yielding the mean of the trailing 120 cells
when those are all valid and absent otherwise; a series of fewer than 120
cells — and in particular any series with fewer than 120 valid values —
yields an absent average.  The extractor's `ma200` field and note fragment
are exactly this computation over the sorted close column. -/
theorem C5_ma_long (close : List (Option ℚ)) :
    (200 ≤ close.length →
      (close.drop (close.length - 200)).all (fun x => x.isSome) = true →
      ma_long close =
        (some ((((close.drop (close.length - 200)).filterMap id).sum) / 200), false)) ∧
    (¬ (200 ≤ close.length ∧
        (close.drop (close.length - 200)).all (fun x => x.isSome) = true) →
      120 ≤ close.length → ma_long close = (rollingMeanLast 120 close, true)) ∧
    (close.length < 120 → ma_long close = (none, false)) ∧
    (close.countP (fun x => x.isSome) < 120 → (ma_long close).1 = none) ∧
    (∀ (df : List Row) (hasVolCol : Bool) (note0 : String),
      (ma_vol_features df hasVolCol note0).ma200 =
        (ma_long (closeColumn (sortByTradeDate df))).1 ∧
      ((ma_long (closeColumn (sortByTradeDate df))).2 = true →
        (ma_vol_features df hasVolCol note0).note = note0 ++ ";use_ma120")) := by
  refine ⟨?_, ?_, ?_, ?_, ?_⟩
  · intro h200 hall
    have hm : rollingMeanLast 200 close =
        some ((((close.drop (close.length - 200)).filterMap id).sum) / 200) := by
      unfold rollingMeanLast
      rw [if_pos hall]
      norm_num
    simp only [ma_long]
    rw [if_pos h200, hm, if_neg (by simp)]
  · intro hno h120
    have hma0 : (if 200 ≤ close.length then rollingMeanLast 200 close else none) =
        none := by
      by_cases h200 : 200 ≤ close.length
      · rw [if_pos h200]
        unfold rollingMeanLast
        rw [if_neg]
        intro hall
        exact hno ⟨h200, hall⟩
      · rw [if_neg h200]
    simp only [ma_long]
    rw [hma0, if_pos ⟨rfl, h120⟩]
  · intro h
    have h200 : ¬ 200 ≤ close.length := by omega
    simp only [ma_long]
    rw [if_neg h200, if_neg (fun hc => absurd hc.2 (by omega))]
  · intro hcnt
    by_cases h120 : 120 ≤ close.length
    · have hma0 : (if 200 ≤ close.length then rollingMeanLast 200 close else none) =
          none := by
        by_cases h200 : 200 ≤ close.length
        · rw [if_pos h200]
          unfold rollingMeanLast
          rw [if_neg]
          intro hall
          have := countValid_ge_of_window_all 200 close h200 hall
          omega
        · rw [if_neg h200]
      have h12 : rollingMeanLast 120 close = none := by
        unfold rollingMeanLast
        rw [if_neg]
        intro hall
        have := countValid_ge_of_window_all 120 close h120 hall
        omega
      simp only [ma_long]
      rw [hma0, if_pos ⟨rfl, h120⟩, h12]
    · have h200 : ¬ 200 ≤ close.length := by omega
      simp only [ma_long]
      rw [if_neg h200, if_neg (fun hc => absurd hc.2 h120)]
  · intro df hasVolCol note0
    refine ⟨rfl, ?_⟩
    intro hfb
    show (if (ma_long (closeColumn (sortByTradeDate df))).2
        then note0 ++ ";use_ma120" else note0) = note0 ++ ";use_ma120"
    rw [if_pos hfb]

/-- Witness for C5 (amended): a series of exactly 150 valid cells falls back
to the 120-window mean, here `1`, with the fallback flagged. -/
theorem C5_ma_long_witness :
    ma_long (List.replicate 150 (some (1 : ℚ))) =
      (rollingMeanLast 120 (List.replicate 150 (some 1)), true) ∧
    rollingMeanLast 120 (List.replicate 150 (some (1 : ℚ))) = some 1 := by
  constructor
  · exact (C5_ma_long (List.replicate 150 (some 1))).2.1
      (by rw [List.length_replicate]; intro h; exact absurd h.1 (by norm_num))
      (by rw [List.length_replicate]; norm_num)
  · unfold rollingMeanLast
    rw [List.length_replicate, show (150 : ℕ) - 120 = 30 from rfl,
      List.drop_replicate, show (150 : ℕ) - 30 = 120 from rfl]
    simp [List.all_replicate, List.filterMap_replicate, List.sum_replicate,
      nsmul_eq_mul]
    norm_num

theorem lastValid_eq_none_iff (col : List (Option ℚ)) :
    lastValid col = none ↔ col.filterMap id = [] := by
  unfold lastValid
  exact List.getLast?_eq_none_iff

theorem lastValid_isSome_of_ne {col : List (Option ℚ)} (h : col.filterMap id ≠ []) :
    ∃ x, lastValid col = some x := by
  cases hl : lastValid col with
  | none => exact absurd ((lastValid_eq_none_iff col).mp hl) h
  | some x => exact ⟨x, rfl⟩

theorem isEmpty_false_of_ne {α : Type} {l : List α} (h : l ≠ []) :
    l.isEmpty = false := by
  cases l with
  | nil => exact absurd rfl h
  | cons a t => rfl

theorem akTryCol_metric {col : Option (List (Option ℚ))} {m note : String}
    {r : ValRes} (h : akTryCol col m note = some r) : r.metric_name = m := by
  cases col with
  | none => exact absurd h (by simp [akTryCol])
  | some c =>
      cases hg : (c.filterMap id).getLast? with
      | none => rw [akTryCol, hg] at h; exact absurd h (by simp)
      | some x =>
          rw [akTryCol, hg] at h
          have := Option.some.inj h
          rw [← this]

theorem primTryCol_metric {col : List (Option ℚ)} {m note : String}
    {r : ValRes} (h : primTryCol col m note = some r) : r.metric_name = m := by
  cases hg : lastValid col with
  | none => rw [primTryCol, hg] at h; exact absurd h (by simp)
  | some x =>
      rw [primTryCol, hg] at h
      have := Option.some.inj h
      rw [← this]

theorem akBranch_na (ak : Except Err (Option AkTable)) (ic : String)
    (h : (akBranch ak ic).metric_name = "na") : (akBranch ak ic).percentile = none := by
  cases ak with
  | error e => rfl
  | ok od =>
      cases od with
      | none => rfl
      | some t =>
          cases hA : akTryCol t.peCol "pe_ttm"
              ("akshare_csindex:" ++ normalizeIndexCode ic) with
          | some rA =>
              have hr : akBranch (.ok (some t)) ic = rA := by
                simp [akBranch, hA, Option.orElse]
              rw [hr] at h
              have := (akTryCol_metric hA).symm.trans h
              exact absurd this (by decide)
          | none =>
              cases hB : akTryCol t.pbCol "pb"
                  ("akshare_csindex:" ++ normalizeIndexCode ic) with
              | some rB =>
                  have hr : akBranch (.ok (some t)) ic = rB := by
                    simp [akBranch, hA, hB, Option.orElse]
                  rw [hr] at h
                  have := (akTryCol_metric hB).symm.trans h
                  exact absurd this (by decide)
              | none =>
                  have hr : akBranch (.ok (some t)) ic =
                      ⟨none, "na", none,
                        "no_index_basic:" ++ ic ++ ";ak_empty"⟩ := by
                    simp [akBranch, hA, hB, Option.orElse]
                  rw [hr]

/-- Claim C6: in both the own-symbol branch and the benchmark-index branch
(primary and secondary source alike), trailing P/E is the selected metric
whenever it has a valid observation, P/B only when P/E has none across the
retrieved history, the percentile is ranked only within the selected
metric's own series, and metric "na" always carries an absent percentile. -/
theorem C6_metric_selection :
    (∀ (rows : List Row) (ue : ℤ), rows ≠ [] →
      (peColumn (sortByTradeDate rows)).filterMap id ≠ [] →
      (stock_percentile (some rows) ue).metric_name = "pe_ttm" ∧
      (stock_percentile (some rows) ue).latest =
        lastValid (peColumn (sortByTradeDate rows)) ∧
      (stock_percentile (some rows) ue).percentile =
        pct_rank (peColumn (sortByTradeDate rows))
          (lastValid (peColumn (sortByTradeDate rows)))) ∧
    (∀ (rows : List Row) (ue : ℤ), rows ≠ [] →
      (peColumn (sortByTradeDate rows)).filterMap id = [] →
      (pbColumn (sortByTradeDate rows)).filterMap id ≠ [] →
      (stock_percentile (some rows) ue).metric_name = "pb" ∧
      (stock_percentile (some rows) ue).latest =
        lastValid (pbColumn (sortByTradeDate rows)) ∧
      (stock_percentile (some rows) ue).percentile =
        pct_rank (pbColumn (sortByTradeDate rows))
          (lastValid (pbColumn (sortByTradeDate rows)))) ∧
    (∀ (df : Option (List Row)) (ue : ℤ),
      (stock_percentile df ue).metric_name = "pb" →
      ∃ rows, df = some rows ∧ (peColumn (sortByTradeDate rows)).filterMap id = []) ∧
    (∀ (df : Option (List Row)) (ue : ℤ),
      (stock_percentile df ue).metric_name = "na" →
      (stock_percentile df ue).percentile = none) ∧
    (∀ (rows : List Row) (ue : ℤ) (ak : Except Err (Option AkTable)) (ic : String),
      rows ≠ [] →
      (peColumn (sortByTradeDate rows)).filterMap id ≠ [] →
      (index_percentile (some rows) ue ak ic).metric_name = "pe_ttm" ∧
      (index_percentile (some rows) ue ak ic).percentile =
        pct_rank (peColumn (sortByTradeDate rows))
          (lastValid (peColumn (sortByTradeDate rows)))) ∧
    (∀ (rows : List Row) (ue : ℤ) (ak : Except Err (Option AkTable)) (ic : String),
      rows ≠ [] →
      (peColumn (sortByTradeDate rows)).filterMap id = [] →
      (pbColumn (sortByTradeDate rows)).filterMap id ≠ [] →
      (index_percentile (some rows) ue ak ic).metric_name = "pb" ∧
      (index_percentile (some rows) ue ak ic).percentile =
        pct_rank (pbColumn (sortByTradeDate rows))
          (lastValid (pbColumn (sortByTradeDate rows)))) ∧
    (∀ (rows : List Row) (ue : ℤ) (ak : Except Err (Option AkTable)) (ic : String),
      rows ≠ [] →
      (peColumn (sortByTradeDate rows)).filterMap id = [] →
      (pbColumn (sortByTradeDate rows)).filterMap id = [] →
      index_percentile (some rows) ue ak ic = index_percentile none ue ak ic) ∧
    (∀ (ue : ℤ) (t : AkTable) (ic : String) (cpe : List (Option ℚ)),
      t.peCol = some cpe → cpe.filterMap id ≠ [] →
      (index_percentile none ue (.ok (some t)) ic).metric_name = "pe_ttm" ∧
      (index_percentile none ue (.ok (some t)) ic).percentile =
        pct_rank ((cpe.filterMap id).map some) (lastValid cpe)) ∧
    (∀ (ue : ℤ) (t : AkTable) (ic : String) (cpb : List (Option ℚ)),
      (∀ cpe, t.peCol = some cpe → cpe.filterMap id = []) →
      t.pbCol = some cpb → cpb.filterMap id ≠ [] →
      (index_percentile none ue (.ok (some t)) ic).metric_name = "pb" ∧
      (index_percentile none ue (.ok (some t)) ic).percentile =
        pct_rank ((cpb.filterMap id).map some) (lastValid cpb)) ∧
    (∀ (df : Option (List Row)) (ue : ℤ) (ak : Except Err (Option AkTable))
      (ic : String),
      (index_percentile df ue ak ic).metric_name = "na" →
      (index_percentile df ue ak ic).percentile = none) := by
  refine ⟨?_, ?_, ?_, ?_, ?_, ?_, ?_, ?_, ?_, ?_⟩
  · intro rows ue hrows hpe
    have hie := isEmpty_false_of_ne hrows
    obtain ⟨x, hx⟩ := lastValid_isSome_of_ne hpe
    rw [hx]
    refine ⟨?_, ?_, ?_⟩ <;> simp [stock_percentile, hie, hx]
  · intro rows ue hrows hpe0 hpb
    have hie := isEmpty_false_of_ne hrows
    have hpeN := (lastValid_eq_none_iff _).mpr hpe0
    obtain ⟨x, hx⟩ := lastValid_isSome_of_ne hpb
    rw [hx]
    refine ⟨?_, ?_, ?_⟩ <;> simp [stock_percentile, hie, hpeN, hx]
  · intro df ue h
    cases df with
    | none => simp [stock_percentile] at h
    | some rows =>
        by_cases hie : rows.isEmpty = true
        · simp [stock_percentile, hie] at h
        · have hieF : rows.isEmpty = false := by simpa using hie
          cases hxe : lastValid (peColumn (sortByTradeDate rows)) with
          | some x => simp [stock_percentile, hieF, hxe] at h
          | none => exact ⟨rows, rfl, (lastValid_eq_none_iff _).mp hxe⟩
  · intro df ue h
    cases df with
    | none => rfl
    | some rows =>
        by_cases hie : rows.isEmpty = true
        · simp [stock_percentile, hie]
        · have hieF : rows.isEmpty = false := by simpa using hie
          cases hxe : lastValid (peColumn (sortByTradeDate rows)) with
          | some x => simp [stock_percentile, hieF, hxe] at h
          | none =>
              cases hxb : lastValid (pbColumn (sortByTradeDate rows)) with
              | some x => simp [stock_percentile, hieF, hxe, hxb] at h
              | none => simp [stock_percentile, hieF, hxe, hxb]
  · intro rows ue ak ic hrows hpe
    have hie := isEmpty_false_of_ne hrows
    obtain ⟨x, hx⟩ := lastValid_isSome_of_ne hpe
    rw [hx]
    constructor <;> simp [index_percentile, primTryCol, hie, hx, Option.orElse]
  · intro rows ue ak ic hrows hpe0 hpb
    have hie := isEmpty_false_of_ne hrows
    have hpeN := (lastValid_eq_none_iff _).mpr hpe0
    obtain ⟨x, hx⟩ := lastValid_isSome_of_ne hpb
    rw [hx]
    constructor <;>
      simp [index_percentile, primTryCol, hie, hpeN, hx, Option.orElse]
  · intro rows ue ak ic hrows hpe0 hpb0
    have hie := isEmpty_false_of_ne hrows
    have hpeN := (lastValid_eq_none_iff _).mpr hpe0
    have hpbN := (lastValid_eq_none_iff _).mpr hpb0
    simp [index_percentile, primTryCol, hie, hpeN, hpbN, Option.orElse]
  · intro ue t ic cpe hpe hne
    obtain ⟨x, hx0⟩ : ∃ x, (cpe.filterMap id).getLast? = some x := by
      cases hg : (cpe.filterMap id).getLast? with
      | none => exact absurd (List.getLast?_eq_none_iff.mp hg) hne
      | some x => exact ⟨x, rfl⟩
    have hlv : lastValid cpe = some x := hx0
    rw [hlv]
    constructor <;>
      simp [index_percentile, akBranch, akTryCol, hpe, hx0, Option.orElse]
  · intro ue t ic cpb hpeEmpty hpb hne
    obtain ⟨x, hx0⟩ : ∃ x, (cpb.filterMap id).getLast? = some x := by
      cases hg : (cpb.filterMap id).getLast? with
      | none => exact absurd (List.getLast?_eq_none_iff.mp hg) hne
      | some x => exact ⟨x, rfl⟩
    have hlv : lastValid cpb = some x := hx0
    rw [hlv]
    cases hp : t.peCol with
    | none =>
        constructor <;>
          simp [index_percentile, akBranch, akTryCol, hp, hpb, hx0, Option.orElse]
    | some cpe =>
        have h0 : cpe.filterMap id = [] := hpeEmpty cpe hp
        constructor <;>
          simp [index_percentile, akBranch, akTryCol, hp, h0, hpb, hx0, Option.orElse]
  · intro df ue ak ic h
    have hred : ∀ (h' : index_percentile df ue ak ic = akBranch ak ic),
        (index_percentile df ue ak ic).percentile = none := by
      intro h'
      rw [h'] at h ⊢
      exact akBranch_na ak ic h
    cases df with
    | none => exact hred rfl
    | some rows =>
        by_cases hie : rows.isEmpty = true
        · exact hred (by simp [index_percentile, hie])
        · have hieF : rows.isEmpty = false := by simpa using hie
          cases hxe : lastValid (peColumn (sortByTradeDate rows)) with
          | some x =>
              have hm : (index_percentile (some rows) ue ak ic).metric_name =
                  "pe_ttm" := by
                simp [index_percentile, primTryCol, hieF, hxe, Option.orElse]
              exact absurd (hm.symm.trans h) (by decide)
          | none =>
              cases hxb : lastValid (pbColumn (sortByTradeDate rows)) with
              | some x =>
                  have hm : (index_percentile (some rows) ue ak ic).metric_name =
                      "pb" := by
                    simp [index_percentile, primTryCol, hieF, hxe, hxb, Option.orElse]
                  exact absurd (hm.symm.trans h) (by decide)
              | none =>
                  exact hred (by
                    simp [index_percentile, primTryCol, hieF, hxe, hxb, Option.orElse])

/-- Witness for C6: a one-row stock history with both metrics present picks
trailing P/E and ranks inside the P/E series; a secondary-source table whose
P/E column is all invalid and whose P/B column has a value picks P/B. -/
theorem C6_metric_selection_witness :
    (stock_percentile (some [⟨1, none, none, none, some 10, some 2⟩]) 7).metric_name
      = "pe_ttm" ∧
    (stock_percentile (some [⟨1, none, none, none, some 10, some 2⟩]) 7).percentile =
      pct_rank (peColumn (sortByTradeDate [⟨1, none, none, none, some 10, some 2⟩]))
        (lastValid (peColumn
          (sortByTradeDate [⟨1, none, none, none, some 10, some 2⟩]))) ∧
    (index_percentile none 7 (.ok (some ⟨some [none], some [some 3, none]⟩))
      "000300.SH").metric_name = "pb" :=
  ⟨(C6_metric_selection.1 [⟨1, none, none, none, some 10, some 2⟩] 7
      (by decide) (by decide)).1,
   (C6_metric_selection.1 [⟨1, none, none, none, some 10, some 2⟩] 7
      (by decide) (by decide)).2.2,
   (C6_metric_selection.2.2.2.2.2.2.2.2.1 7 ⟨some [none], some [some 3, none]⟩
      "000300.SH" [some 3, none]
      (fun cpe hcpe => by injection hcpe with h; subst h; rfl)
      rfl (by decide)).1⟩

end CalcSignals
